import Mathlib

/-!
Verification development for the yaycl layered-configuration store.

The definitions below are a shallow embedding of `src/yaycl/__init__.py`
together with the `lya.AttrDict` operations it relies on (`update`,
`update_dict`/`update_flat`, `flatten_dict`, `clone`, `rebase`).
Python dictionaries become ordered field lists, object identity is made
explicit through a heap of document ids, and every fallible or possibly
non-terminating code path returns `Option` (with `none` standing for an
uncaught Python exception or exhausted fuel).
-/

namespace Yaycl

mutual
/-- A YAML value: scalar (string, integer, boolean), sequence, or an ordered
mapping.  Mappings are ordered field lists, mirroring the ordered
dictionaries (`lya.AttrDict`) the source uses; sequences are plain Python
lists, which `flatten_dict` treats as leaves (it never recurses into
them). -/
inductive Val where
  | str : String → Val
  | int : Int → Val
  | bool : Bool → Val
  | seq : Elems → Val
  | map : Fields → Val
deriving DecidableEq

/-- The elements of one sequence value. -/
inductive Elems where
  | nil : Elems
  | cons : Val → Elems → Elems
deriving DecidableEq

/-- The ordered fields of one mapping (one `AttrDict`). -/
inductive Fields where
  | nil : Fields
  | cons : String → Val → Fields → Fields
deriving DecidableEq
end

/-- A document: the contents of one `AttrDict`. -/
abbrev Doc := Fields

/-- Build a field list from a plain list (used to write literals). -/
def Fields.ofList : List (String × Val) → Fields
  | [] => .nil
  | (k, v) :: rest => .cons k v (Fields.ofList rest)

/-- Build a sequence from a plain list (used to write literals). -/
def Elems.ofList : List Val → Elems
  | [] => .nil
  | v :: rest => .cons v (Elems.ofList rest)

/-- Dictionary lookup (`d[k]` on the item-get side, `none` for `KeyError`). -/
def getk : Doc → String → Option Val
  | .nil, _ => none
  | .cons k' v rest, k => if k' = k then some v else getk rest k

/-- Dictionary item assignment `d[k] = v`: replaces the value in place when
the key is present (keeping its position, as an ordered dict does), appends
otherwise. -/
def setk : Doc → String → Val → Doc
  | .nil, k, v => .cons k v .nil
  | .cons k' v' rest, k, v =>
      if k' = k then .cons k v rest else .cons k' v' (setk rest k v)

/-- Dictionary item deletion `del d[k]`. -/
def delk : Doc → String → Doc
  | .nil, _ => .nil
  | .cons k' v' rest, k => if k' = k then rest else .cons k' v' (delk rest k)

/-- `AttrDict.update` with a mapping argument: a shallow, top-level update —
each top-level key of the argument is assigned wholesale into `m` (Python's
`MutableMapping.update` calling `__setitem__` once per top-level key). -/
def updateShallow (m : Doc) : Doc → Doc
  | .nil => m
  | .cons k v rest => updateShallow (setk m k v) rest

mutual
/-- `AttrDict.flatten_dict`: the list of leaf paths of a document, in order.
Recurses into mapping values (so an empty mapping contributes nothing) and
treats every non-mapping value as a leaf. -/
def flattenDoc (path : List String) : Doc → List (List String × Val)
  | .nil => []
  | .cons k v rest => flattenEntry path k v ++ flattenDoc path rest

/-- Flattening of a single entry of a document. -/
def flattenEntry (path : List String) (k : String) : Val → List (List String × Val)
  | .map m => flattenDoc (path ++ [k]) m
  | v => [(path ++ [k], v)]
end

/-- One step of `AttrDict.update_flat`: write value `v` at the key path `p`,
auto-creating empty sub-dictionaries for missing intermediate keys; `none`
when an intermediate key holds a non-mapping value (Python raises there). -/
def updFlat1 : Doc → List String → Val → Option Doc
  | m, [k], v => some (setk m k v)
  | m, k :: rest, v =>
      match getk m k with
      | none => (updFlat1 .nil rest v).map (fun sub => setk m k (.map sub))
      | some (.map sub) => (updFlat1 sub rest v).map (fun sub' => setk m k (.map sub'))
      | some _ => none
  | _, [], _ => none

/-- `AttrDict.update_flat` over a whole flattened list. -/
def updFlatAll : Doc → List (List String × Val) → Option Doc
  | m, [] => some m
  | m, (p, v) :: rest => do
      let m' ← updFlat1 m p v
      updFlatAll m' rest

/-- `AttrDict.update_dict`: deep merge of `data` onto `m` by flattening
`data` and writing each leaf. -/
def updateDict (m data : Doc) : Option Doc :=
  updFlatAll m (flattenDoc [] data)

/-- `AttrDict.clone`: a deep copy built by flattening and re-inserting
(in particular, empty sub-mappings are dropped by the flatten step). -/
def cloneDoc (m : Doc) : Option Doc :=
  updFlatAll .nil (flattenDoc [] m)

/-- `AttrDict.rebase self base`: clone `base`, deep-merge `self` onto the
clone, then replace the contents of `self` with a clone of the result. -/
def rebaseDoc (self base : Doc) : Option Doc := do
  let b1 ← cloneDoc base
  let b2 ← updFlatAll b1 (flattenDoc [] self)
  cloneDoc b2

/-- The advisory warnings the source defines (`UserWarning` subclasses). -/
inductive Warn where
  | configNotFound : Warn
  | configInvalid : Warn
  | invalidInheritPath : Warn
deriving DecidableEq

/-- Python's `s.split('/')` (structurally recursive so that it evaluates
inside the kernel): split on every slash, keeping empty pieces. -/
def splitSlashAux : List Char → List Char → List String
  | [], acc => [String.mk acc]
  | c :: rest, acc =>
      if c = '/' then String.mk acc :: splitSlashAux rest []
      else splitSlashAux rest (acc ++ [c])

/-- `inherit_path.split('/')`. -/
def splitSlash (s : String) : List String :=
  splitSlashAux s.toList []

/-- Python's `attr.startswith('_')`. -/
def startsWithUnderscore (s : String) : Bool :=
  match s.toList with
  | [] => false
  | c :: _ => c = '_'

/-- One full scan of `Config._needs_inherit`: the paths (with the final
`inherit` component stripped, as the generator yields `k[:-1]`) of every
flattened leaf whose key is the marker `inherit`. -/
def markers (d : Doc) : List (List String) :=
  (flattenDoc [] d).filterMap
    (fun p => if p.1.getLast? = some "inherit" then some p.1.dropLast else none)

/-- Walk a value along a chain of keys, failing on a missing key or on
indexing into a non-mapping (both raise in Python). -/
def walkVal : Val → List String → Option Val
  | v, [] => some v
  | .map m, k :: rest =>
      match getk m k with
      | some v => walkVal v rest
      | none => none
  | _, _ :: _ => none

/-- Write a value at a key path inside a document; intermediate path
components must exist and be mappings. -/
def setPath : Doc → List String → Val → Option Doc
  | d, [k], v => some (setk d k v)
  | d, k :: rest, v =>
      match getk d k with
      | some (.map m) => (setPath m rest v).map (fun m' => setk d k (.map m'))
      | _ => none
  | _, [], _ => none

/-- The `for path_element in ...inherit.split('/')` walk of `Config._inherit`:
follow the path from the document root, returning the prefix of elements
successfully traversed and whether a `KeyError` stopped the walk (which the
source catches and turns into the `InvalidInheritPath` advisory).  Stepping
into a non-mapping raises an uncaught error (`none`). -/
def walkPartial : Val → List String → Option (List String × Bool)
  | _, [] => some ([], false)
  | .map m, k :: rest =>
      match getk m k with
      | some v => (walkPartial v rest).map (fun pw => (k :: pw.1, pw.2))
      | none => some ([], true)
  | _, _ :: _ => none

/-- One loop iteration of `Config._inherit` for one path yielded by
`_needs_inherit`: locate the marker-bearing node, walk the marker value from
the document root, then either rebase (mapping target, marker removed first)
or replace the whole entry (non-mapping target).  All uncaught Python
exceptions along the way are `none`. -/
def inheritStep (d : Doc) (p : List String) : Option (Doc × List Warn) :=
  match p.getLast? with
  | none => none
  | some rootKey =>
    let keys := p.dropLast
    match walkVal (.map d) keys with
    | some (.map root) =>
      match getk root rootKey with
      | some (.map node) =>
        match getk node "inherit" with
        | some (.str inhPath) =>
          match walkPartial (.map d) (splitSlash inhPath) with
          | none => none
          | some (pre, warned) =>
            let ws := if warned then [Warn.invalidInheritPath] else []
            match walkVal (.map d) pre with
            | some (.map _) =>
              -- the target is stored as a mapping: delete the marker from
              -- the live tree, re-read the (possibly aliased) base, rebase
              (do
                let d1 ← setPath d (keys ++ [rootKey]) (.map (delk node "inherit"))
                match walkVal (.map d1) pre with
                | some (.map b1) => do
                    let node2 ← rebaseDoc (delk node "inherit") b1
                    let d2 ← setPath d1 (keys ++ [rootKey]) (.map node2)
                    some (d2, ws)
                | _ => none)
            | some v =>
              -- non-mapping target: overwrite the whole entry in place
              (setPath d (keys ++ [rootKey]) v).map (fun d' => (d', ws))
            | none => none
        | _ => none
      | _ => none
    | _ => none

/-- Process, in order, every marker path found by one full scan, applying
each resolution to the live document (the source interleaves the generator
`_needs_inherit` with the mutations of `_inherit`). -/
def inheritSteps : Doc → List (List String) → List Warn → Option (Doc × List Warn)
  | d, [], ws => some (d, ws)
  | d, p :: rest, ws =>
      match inheritStep d p with
      | none => none
      | some (d', w) => inheritSteps d' rest (ws ++ w)

/-- The full `_inherit` / `_needs_inherit` loop: rescan until a full scan
finds zero markers; `fuel` bounds the number of rescans (the source can loop
forever on unresolvable configurations, which is `none` here). -/
def inheritLoop : Nat → Doc → List Warn → Option (Doc × List Warn)
  | 0, _, _ => none
  | fuel + 1, d, ws =>
      if markers d = [] then some (d, ws)
      else
        match inheritSteps d (markers d) ws with
        | none => none
        | some (d', ws') => inheritLoop fuel d' ws'

mutual
/-- A value stored in the runtime-override `ConfigTree`: either a raw value
(inserted by `dict.update` or by assignment through a tree node, both of
which store values as given) or an auto-vivified `ConfigTree` child node. -/
inductive TVal where
  | leaf : Val → TVal
  | node : TFields → TVal
deriving DecidableEq

/-- The ordered entries of one `ConfigTree` nesting level. -/
inductive TFields where
  | nil : TFields
  | cons : String → TVal → TFields → TFields
deriving DecidableEq
end

/-- The contents of the runtime-override `ConfigTree`. -/
abbrev Tree := TFields

/-- Build a tree level from a plain list (used to write literals). -/
def TFields.ofList : List (String × TVal) → TFields
  | [] => .nil
  | (k, v) :: rest => .cons k v (TFields.ofList rest)

mutual
/-- Conversion applied when a `ConfigTree` entry is merged into an
`AttrDict` (the `AttrDict` constructor converts any nested mapping). -/
def TVal.toVal : TVal → Val
  | .leaf v => v
  | .node l => .map (TFields.toFields l)

/-- Conversion of `ConfigTree` levels to document field lists. -/
def TFields.toFields : TFields → Fields
  | .nil => .nil
  | .cons k t rest => .cons k (TVal.toVal t) (TFields.toFields rest)
end

/-- Lookup in a `ConfigTree` level (plain `dict` lookup, no vivification). -/
def lookupT : Tree → String → Option TVal
  | .nil, _ => none
  | .cons k' v rest, k => if k' = k then some v else lookupT rest k

/-- Raw item insertion or replacement on a `ConfigTree` level. -/
def setT : Tree → String → TVal → Tree
  | .nil, k, v => .cons k v .nil
  | .cons k' v' rest, k, v =>
      if k' = k then .cons k v rest else .cons k' v' (setT rest k v)

/-- Iterating a `ConfigTree` entry in `AttrDict.update`: a tree level or a
raw mapping value yields its (converted) items; updating with a raw
non-mapping value raises in Python. -/
def asEntries : TVal → Option Doc
  | .node l => some (TFields.toFields l)
  | .leaf (.map m) => some m
  | .leaf _ => none

/-- The `Config` store state.  Object identity of the per-name documents is
explicit: `binding` maps a document name to a heap index, and `heap` holds
each document object's current contents.  `treeId` is an identity token for
the one `ConfigTree` object created in `Config.__init__` and never rebound.
`files` stands for the config directory read by the default loader. -/
structure Config where
  files : List (String × Doc)
  binding : List (String × Nat)
  heap : List Doc
  tree : Tree
  treeId : Nat
deriving DecidableEq

/-- `Config(config_dir)`: fresh store, empty cache, empty runtime tree. -/
def mkConfig (files : List (String × Doc)) : Config :=
  { files := files, binding := [], heap := [], tree := .nil, treeId := 0 }

/-- Lookup of a name in the store's name-to-object binding. -/
def lookupB : List (String × Nat) → String → Option Nat
  | [], _ => none
  | (k', i) :: rest, k => if k' = k then some i else lookupB rest k

/-- Lookup of a file in the config directory. -/
def lookupF : List (String × Doc) → String → Option Doc
  | [], _ => none
  | (k', d) :: rest, k => if k' = k then some d else lookupF rest k

/-- Steps 1-4 of the populate pipeline (`Config._populate` up to the write
into the cached document): load the base document (an empty result warns
`ConfigNotFound`), deep-merge the `.local` document when present (failure
to find it is silent), then `AttrDict.update` with the staged runtime
override for this name (a shallow top-level update). -/
def populateMerged (files : List (String × Doc)) (tree : Tree) (key : String) :
    Option (Doc × List Warn) :=
  let base := (lookupF files key).getD .nil
  let ws := if base = .nil then [Warn.configNotFound] else []
  let locl := (lookupF files (key ++ ".local")).getD .nil
  match (if locl = .nil then some base else updateDict base locl) with
  | none => none
  | some m1 =>
      match lookupT tree key with
      | none => some (m1, ws)
      | some tv =>
          match asEntries tv with
          | none => none
          | some e => some (updateShallow m1 e, ws)

/-- `Config._populate(key)` acting on the document object at heap index `i`:
merge the layers, shallow-update them into the (already cleared) document
object in place, then run the inheritance resolver over it. -/
def Config.populate (fuel : Nat) (s : Config) (key : String) (i : Nat) :
    Option (Config × List Warn) :=
  match populateMerged s.files s.tree key with
  | none => none
  | some (m, ws1) =>
      match inheritLoop fuel (updateShallow (s.heap.getD i .nil) m) [] with
      | none => none
      | some (d, ws2) => some ({ s with heap := s.heap.set i d }, ws1 ++ ws2)

/-- `Config.__getitem__`: return the cached document object on a hit; on a
miss, bind the name to a fresh empty document object and populate it. -/
def Config.getitem (fuel : Nat) (s : Config) (key : String) :
    Option (Config × Nat × List Warn) :=
  match lookupB s.binding key with
  | some i => some (s, i, [])
  | none =>
      let i := s.heap.length
      let s1 : Config :=
        { s with binding := s.binding ++ [(key, i)], heap := s.heap ++ [.nil] }
      (Config.populate fuel s1 key i).map (fun sw => (sw.1, i, sw.2))

/-- `Config.__setitem__`: `self[key].clear(); self[key].update(value)` — the
existing document object is cleared and refilled, never rebound. -/
def Config.setitem (fuel : Nat) (s : Config) (key : String) (value : Doc) :
    Option (Config × List Warn) :=
  match Config.getitem fuel s key with
  | none => none
  | some (s1, i, ws1) =>
      match Config.getitem fuel { s1 with heap := s1.heap.set i .nil } key with
      | none => none
      | some (s3, j, ws2) =>
          some ({ s3 with heap := s3.heap.set j (updateShallow (s3.heap.getD j .nil) value) },
                ws1 ++ ws2)

/-- `Config.__delitem__`: clear the document object in place, repopulate. -/
def Config.delitem (fuel : Nat) (s : Config) (key : String) :
    Option (Config × List Warn) :=
  match Config.getitem fuel s key with
  | none => none
  | some (s1, i, ws1) =>
      match Config.populate fuel { s1 with heap := s1.heap.set i .nil } key i with
      | none => none
      | some (s3, ws2) => some (s3, ws1 ++ ws2)

/-- The loop body of `Config.clear`: for each bound name in order, clear its
document object in place and repopulate it. -/
def Config.clearNames (fuel : Nat) : Config → List (String × Nat) → Option (Config × List Warn)
  | s, [] => some (s, [])
  | s, (n, i) :: rest =>
      match Config.populate fuel { s with heap := s.heap.set i .nil } n i with
      | none => none
      | some (s2, ws1) =>
          match Config.clearNames fuel s2 rest with
          | none => none
          | some (s3, ws2) => some (s3, ws1 ++ ws2)

/-- `Config.clear`: clear and repopulate every known document in place. -/
def Config.clear (fuel : Nat) (s : Config) : Option (Config × List Warn) :=
  Config.clearNames fuel s s.binding

/-- The populate pipeline as a pure function of the loader files, the
runtime tree and the name: the contents a document object holds right after
`Config._populate` ran against it in cleared state.  Used to state that a
whole-store invalidation really re-derives every document. -/
def populateContent (fuel : Nat) (files : List (String × Doc)) (tree : Tree)
    (key : String) : Option (Doc × List Warn) :=
  match populateMerged files tree key with
  | none => none
  | some (m, ws1) =>
      match inheritLoop fuel (updateShallow .nil m) [] with
      | none => none
      | some (d, ws2) => some (d, ws1 ++ ws2)

/-- Outcome of `Config.__getattribute__`. -/
inductive AttrRes where
  | obj : AttrRes
  | doc : Nat → AttrRes
  | attrError : AttrRes
deriving DecidableEq

/-- `Config.__getattribute__`: normal object attributes win; otherwise a
cached name returns its document; otherwise a name with the private prefix
re-raises `AttributeError`; anything else goes through the loader via
`__getitem__`.  `isObjAttr` abstracts which names resolve as actual object
attributes of the instance or class. -/
def Config.getattribute (fuel : Nat) (s : Config) (isObjAttr : String → Bool)
    (attr : String) : Option (Config × AttrRes × List Warn) :=
  if isObjAttr attr then some (s, .obj, [])
  else
    match lookupB s.binding attr with
    | some i => some (s, .doc i, [])
    | none =>
        if startsWithUnderscore attr then some (s, .attrError, [])
        else (Config.getitem fuel s attr).map (fun r => (r.1, .doc r.2.1, r.2.2))

/-- `ConfigTree.__getitem__` at the top level: a present key is returned as
is; a missing key is auto-vivified — `defaultdict.__missing__` inserts a
fresh empty child through the overridden `__setitem__`, which triggers a
full `Config.clear`. -/
def treeGetTop (fuel : Nat) (s : Config) (n : String) : Option (Config × TVal) :=
  match lookupT s.tree n with
  | some tv => some (s, tv)
  | none =>
      match Config.clear fuel { s with tree := setT s.tree n (.node .nil) } with
      | none => none
      | some (s2, _) => some (s2, .node .nil)

/-- `conf.runtime[n][k] = v`: read (possibly vivifying) the top-level entry,
then assign through the child.  Assignment through a `ConfigTree` child
triggers another full `Config.clear`; assignment into a raw mapping value
does not (plain `dict.__setitem__`); assignment into a raw scalar raises. -/
def treeAssign2 (fuel : Nat) (s : Config) (n k : String) (v : Val) : Option Config :=
  match treeGetTop fuel s n with
  | none => none
  | some (s1, .node l) =>
      match Config.clear fuel { s1 with tree := setT s1.tree n (.node (setT l k (.leaf v))) } with
      | none => none
      | some (s3, _) => some s3
  | some (s1, .leaf (.map m)) =>
      some { s1 with tree := setT s1.tree n (.leaf (.map (setk m k v))) }
  | some (_, .leaf _) => none

/-- Evaluating `conf.runtime[a][b]` (a pure read at the Python call site):
both levels auto-vivify on a miss, each vivification triggering a full
`Config.clear`; a read through a raw mapping value is a plain lookup. -/
def treeRead2 (fuel : Nat) (s : Config) (a b : String) : Option (Config × TVal) :=
  match treeGetTop fuel s a with
  | none => none
  | some (s1, .node l) =>
      match lookupT l b with
      | some tv2 => some (s1, tv2)
      | none =>
          match Config.clear fuel { s1 with tree := setT s1.tree a (.node (setT l b (.node .nil))) } with
          | none => none
          | some (s3, _) => some (s3, .node .nil)
  | some (s1, .leaf (.map m)) =>
      match getk m b with
      | none => none
      | some v => some (s1, .leaf v)
  | some (_, .leaf _) => none

/-- `dict.update` of the runtime tree with a plain mapping: raw top-level
insertion (bypassing the overridden `__setitem__`). -/
def treeUpd (t : Tree) : Doc → Tree
  | .nil => t
  | .cons k v rest => treeUpd (setT t k (.leaf v)) rest

/-- `conf.runtime = m` (the property setter `_set_runtime_overrides`):
`self._runtime.update(m)` — the tree object is kept and merged into, and
`ConfigTree.update` then triggers a full `Config.clear`. -/
def setRuntime (fuel : Nat) (s : Config) (m : Doc) : Option (Config × List Warn) :=
  Config.clear fuel { s with tree := treeUpd s.tree m }

/-- `del conf.runtime` (the property deleter `_del_runtime_overrides`):
`self._runtime.clear()` — contents cleared in place, then a full
`Config.clear`. -/
def delRuntime (fuel : Nat) (s : Config) : Option (Config × List Warn) :=
  Config.clear fuel { s with tree := .nil }

/-- Well-formedness of a store state: distinct names, distinct document
object ids, and every id inside the heap. -/
def WF (s : Config) : Prop :=
  (s.binding.map Prod.fst).Nodup ∧ (s.binding.map Prod.snd).Nodup ∧
    ∀ p ∈ s.binding, p.2 < s.heap.length

instance (s : Config) : Decidable (WF s) := by
  unfold WF; infer_instance

mutual
/-- Whether any mapping node of a document, at any depth — including inside
sequences — contains the key `inherit` (regardless of the associated
value's shape). -/
def hasInheritDeep : Doc → Bool
  | .nil => false
  | .cons k v rest => k = "inherit" || hasInheritVal v || hasInheritDeep rest

/-- Whether a value contains a mapping node with the key `inherit`. -/
def hasInheritVal : Val → Bool
  | .map m => hasInheritDeep m
  | .seq l => hasInheritElems l
  | _ => false

/-- Whether any element of a sequence contains a mapping node with the key
`inherit`. -/
def hasInheritElems : Elems → Bool
  | .nil => false
  | .cons v rest => hasInheritVal v || hasInheritElems rest
end

/-- The three-layer document of claim C2: base file, `.local` file, staged
runtime override for the name `doc`. -/
def c2Store : Config :=
  { mkConfig
      [("doc", .ofList [("a", .int 1), ("b", .map (.ofList [("x", .int 1), ("y", .int 2)]))]),
       ("doc.local", .ofList [("b", .map (.ofList [("x", .int 9)]))])] with
    tree := .ofList [("doc", .node (.ofList [("b", .node (.ofList [("y", .leaf (.int 99))]))]))] }

/-- What claim C2 says the pipeline produces for `doc`. -/
def c2Claimed : Doc :=
  .ofList [("a", .int 1), ("b", .map (.ofList [("x", .int 9), ("y", .int 99)]))]

/-- What the pipeline actually produces for `doc`. -/
def c2Actual : Doc :=
  .ofList [("a", .int 1), ("b", .map (.ofList [("y", .int 99)]))]

/-- The nested-inheritance document of claim C4. -/
def c4Doc : Doc :=
  .ofList
    [("root", .map (.ofList [("k1", .str "v1"), ("k2", .str "v2")])),
     ("mid", .map (.ofList
        [("inherit", .str "root"),
         ("extra", .map (.ofList [("inherit", .str "mid")]))]))]

/-- The resolved form of `c4Doc`. -/
def c4Resolved : Doc :=
  .ofList
    [("root", .map (.ofList [("k1", .str "v1"), ("k2", .str "v2")])),
     ("mid", .map (.ofList
        [("k1", .str "v1"), ("k2", .str "v2"),
         ("extra", .map (.ofList [("k1", .str "v1"), ("k2", .str "v2")]))]))]

/-- The broken-path document of claim C5. -/
def c5CexDoc : Doc :=
  .ofList [("broken", .map (.ofList [("inherit", .str "does/not/exist")]))]

/-- A document with one broken marker and one resolvable marker, showing
what really happens on a broken path. -/
def c5Doc : Doc :=
  .ofList
    [("target", .map (.ofList [("z", .str "1")])),
     ("ok", .map (.ofList [("inherit", .str "target")])),
     ("broken", .map (.ofList [("inherit", .str "does/not/exist")]))]

/-- The resolved form of `c5Doc`: `ok` was resolved, and `broken` lost its
marker and was rebased onto the document root as it stood at that moment. -/
def c5Resolved : Doc :=
  .ofList
    [("target", .map (.ofList [("z", .str "1")])),
     ("ok", .map (.ofList [("z", .str "1")])),
     ("broken", .map (.ofList
        [("target", .map (.ofList [("z", .str "1")])),
         ("ok", .map (.ofList [("z", .str "1")]))]))]

/-- A document whose `inherit` key holds a mapping value: the leaf-flatten
scan of `_needs_inherit` never sees it. -/
def c3CexDoc : Doc :=
  .ofList [("a", .map (.ofList [("inherit", .map (.ofList [("x", .int 1)]))]))]

/-- A document with a marker-bearing mapping nested inside a sequence: the
sequence is a flatten leaf, so the string-valued marker inside it is never
seen by the scan either. -/
def c3SeqDoc : Doc :=
  .ofList
    [("root", .map (.ofList [("k1", .str "v1")])),
     ("a", .seq (.ofList [.map (.ofList [("inherit", .str "root")])]))]

/-- The top-level keys of a field list. -/
def fieldsKeys : Fields → List String
  | .nil => []
  | .cons k _ rest => k :: fieldsKeys rest

/-- The store that caching the private-prefixed name through item access
produces from a fresh empty store. -/
def c7Cached : Config :=
  { files := [], binding := [("_foo", 0)], heap := [.nil], tree := .nil, treeId := 0 }

/-- Store after the first `get` of name `K` on a fresh empty store. -/
def c1W : Config :=
  { files := [], binding := [("K", 0)], heap := [.nil], tree := .nil, treeId := 0 }

/-- Store after `set("K", mapping)` on `c1W`. -/
def c1WSet : Config :=
  { files := [], binding := [("K", 0)], heap := [.cons "z" (.str "zz") .nil],
    tree := .nil, treeId := 0 }

/-- The runtime tree staged by `runtime[X][k] = v` on a fresh store. -/
def c6Tree (X k : String) (v : Val) : Tree :=
  .cons X (.node (.cons k (.leaf v) .nil)) .nil

/-- Fresh store with `runtime[X][k] = v` staged. -/
def c6S1 (files : List (String × Doc)) (X k : String) (v : Val) : Config :=
  { files := files, binding := [], heap := [], tree := c6Tree X k v, treeId := 0 }

/-- The same store after `get(X)` populated the document for `X`. -/
def c6S2 (files : List (String × Doc)) (X k : String) (v : Val) : Config :=
  { files := files, binding := [(X, 0)], heap := [.cons k v .nil],
    tree := c6Tree X k v, treeId := 0 }

/-- A store with one populated document and one staged override, used to
exercise the runtime-setter claim. -/
def c9S : Config :=
  { files := [], binding := [("d0", 0)], heap := [.cons "old" (.str "x") .nil],
    tree := .cons "keep" (.leaf (.str "staged")) .nil, treeId := 7 }

/-- The mapping assigned to the runtime property in the C9 witness. -/
def c9M : Doc := .cons "d0" (.map (.cons "q" (.str "1") .nil)) .nil

/-- A store with one populated (stale) document, used to exercise the
auto-vivification claim. -/
def c10S : Config :=
  { files := [("d0", .cons "p" (.str "file") .nil)], binding := [("d0", 0)],
    heap := [.cons "p" (.str "stale") .nil], tree := .nil, treeId := 5 }

/-- The store produced by assigning `c9M` to the runtime property of `c9S`. -/
def c9Sres : Config :=
  { files := [], binding := [("d0", 0)], heap := [.cons "q" (.str "1") .nil],
    tree := .cons "keep" (.leaf (.str "staged"))
      (.cons "d0" (.leaf (.map (.cons "q" (.str "1") .nil))) .nil),
    treeId := 7 }

/-- The store produced by evaluating `runtime["a"]["b"]` on `c10S`. -/
def c10Sres : Config :=
  { files := [("d0", .cons "p" (.str "file") .nil)], binding := [("d0", 0)],
    heap := [.cons "p" (.str "file") .nil],
    tree := .cons "a" (.node (.cons "b" (.node .nil) .nil)) .nil, treeId := 5 }

/-! ### Basic lemmas about the heap and the lookup tables -/

theorem getD_set_self {α : Type} : ∀ (l : List α) (i : Nat) (x e : α),
    i < l.length → (l.set i x).getD i e = x
  | [], i, _, _, h => absurd h (by simp)
  | _ :: _, 0, _, _, _ => rfl
  | _ :: t, i + 1, x, e, h =>
      getD_set_self t i x e (Nat.lt_of_succ_lt_succ h)

theorem getD_set_ne {α : Type} : ∀ (l : List α) (i j : Nat) (x e : α),
    i ≠ j → (l.set i x).getD j e = l.getD j e
  | [], _, _, _, _, _ => rfl
  | _ :: _, 0, 0, _, _, h => absurd rfl h
  | _ :: _, 0, _ + 1, _, _, _ => rfl
  | _ :: _, _ + 1, 0, _, _, _ => rfl
  | _ :: t, i + 1, j + 1, x, e, h =>
      getD_set_ne t i j x e (fun hij => h (by rw [hij]))

theorem getD_append_length {α : Type} : ∀ (l : List α) (x e : α),
    (l ++ [x]).getD l.length e = x
  | [], _, _ => rfl
  | _ :: t, x, e => getD_append_length t x e

theorem set_append_length {α : Type} : ∀ (l : List α) (x y : α),
    (l ++ [x]).set l.length y = l ++ [y]
  | [], _, _ => rfl
  | a :: t, x, y => by
      show a :: (t ++ [x]).set t.length y = a :: (t ++ [y])
      rw [set_append_length t x y]

theorem length_append_one {α : Type} (l : List α) (x : α) :
    (l ++ [x]).length = l.length + 1 := by simp

theorem lookupB_mem : ∀ (b : List (String × Nat)) (n : String) (i : Nat),
    lookupB b n = some i → (n, i) ∈ b := by
  intro b
  induction b with
  | nil => intro n i h; simp [lookupB] at h
  | cons p rest ih =>
      intro n i h
      obtain ⟨k, j⟩ := p
      by_cases hk : k = n
      · subst hk
        simp [lookupB] at h
        simp [h]
      · simp [lookupB, hk] at h
        exact List.mem_cons_of_mem _ (ih n i h)

theorem lookupB_append_self : ∀ (b : List (String × Nat)) (k : String) (i : Nat),
    lookupB b k = none → lookupB (b ++ [(k, i)]) k = some i := by
  intro b
  induction b with
  | nil => intro k i _; simp [lookupB]
  | cons p rest ih =>
      intro k i h
      obtain ⟨k', j⟩ := p
      by_cases hk : k' = k
      · subst hk; simp [lookupB] at h
      · simp [lookupB, hk] at h ⊢
        exact ih k i h

theorem lookupT_setT_self : ∀ (t : Tree) (k : String) (v : TVal),
    lookupT (setT t k v) k = some v
  | .nil, k, v => by simp [setT, lookupT]
  | .cons k' v' rest, k, v => by
      by_cases hk : k' = k
      · subst hk; simp [setT, lookupT]
      · simp [setT, lookupT, hk]
        exact lookupT_setT_self rest k v

theorem lookupT_setT_ne : ∀ (t : Tree) (k n : String) (v : TVal),
    k ≠ n → lookupT (setT t k v) n = lookupT t n
  | .nil, k, n, v, h => by simp [setT, lookupT, h]
  | .cons k' v' rest, k, n, v, h => by
      by_cases hk : k' = k
      · subst hk; simp [setT, lookupT, h]
      · simp [setT, hk, lookupT]
        by_cases hn : k' = n
        · simp [hn]
        · simp [hn]; exact lookupT_setT_ne rest k n v h

theorem setT_setT_self : ∀ (t : Tree) (k : String) (x y : TVal),
    setT (setT t k x) k y = setT t k y
  | .nil, k, x, y => by simp [setT]
  | .cons k' v' rest, k, x, y => by
      by_cases hk : k' = k
      · subst hk; simp [setT]
      · simp [setT, hk]; exact setT_setT_self rest k x y

theorem getk_eq_none_of_not_mem : ∀ (m : Fields) (n : String),
    n ∉ fieldsKeys m → getk m n = none
  | .nil, n, _ => rfl
  | .cons k v rest, n, h => by
      simp [fieldsKeys] at h
      have hk : ¬k = n := fun hh => h.1 hh.symm
      simp [getk, hk, getk_eq_none_of_not_mem rest n h.2]

/-! ### Frame and content lemmas about `_populate` and `clear` -/

theorem populate_frame (fuel : Nat) (s : Config) (key : String) (i : Nat)
    (s' : Config) (ws : List Warn)
    (h : Config.populate fuel s key i = some (s', ws)) :
    s'.files = s.files ∧ s'.binding = s.binding ∧ s'.tree = s.tree ∧
    s'.treeId = s.treeId ∧ s'.heap.length = s.heap.length ∧
    (∀ j, j ≠ i → s'.heap.getD j .nil = s.heap.getD j .nil) := by
  unfold Config.populate at h
  cases h1 : populateMerged s.files s.tree key with
  | none => rw [h1] at h; exact absurd h (by simp)
  | some mw =>
      obtain ⟨m, ws1⟩ := mw
      rw [h1] at h
      dsimp only at h
      cases h2 : inheritLoop fuel (updateShallow (s.heap.getD i .nil) m) [] with
      | none => rw [h2] at h; exact absurd h (by simp)
      | some dw =>
          obtain ⟨d, ws2⟩ := dw
          rw [h2] at h
          simp only [Option.some.injEq, Prod.mk.injEq] at h
          obtain ⟨hs, hw⟩ := h
          subst hs
          refine ⟨rfl, rfl, rfl, rfl, by simp, ?_⟩
          intro j hj
          exact getD_set_ne _ _ _ _ _ (fun e => hj e.symm)

theorem populate_empty (fuel : Nat) (s : Config) (key : String) (i : Nat)
    (hi : s.heap.getD i .nil = .nil) :
    Config.populate fuel s key i =
      (populateContent fuel s.files s.tree key).map
        (fun dw => ({ s with heap := s.heap.set i dw.1 }, dw.2)) := by
  unfold Config.populate populateContent
  rw [hi]
  cases populateMerged s.files s.tree key with
  | none => rfl
  | some mw =>
      obtain ⟨m, ws1⟩ := mw
      dsimp only
      cases inheritLoop fuel (updateShallow .nil m) [] with
      | none => rfl
      | some dw => rfl

theorem clearNames_frame : ∀ (l : List (String × Nat)) (fuel : Nat)
    (s s' : Config) (ws : List Warn),
    Config.clearNames fuel s l = some (s', ws) →
    s'.files = s.files ∧ s'.binding = s.binding ∧ s'.tree = s.tree ∧
    s'.treeId = s.treeId ∧ s'.heap.length = s.heap.length := by
  intro l
  induction l with
  | nil =>
      intro fuel s s' ws h
      simp only [Config.clearNames, Option.some.injEq, Prod.mk.injEq] at h
      rw [← h.1]
      exact ⟨rfl, rfl, rfl, rfl, rfl⟩
  | cons p rest ih =>
      intro fuel s s' ws h
      obtain ⟨n, i⟩ := p
      unfold Config.clearNames at h
      cases h1 : Config.populate fuel { s with heap := s.heap.set i .nil } n i with
      | none => rw [h1] at h; exact absurd h (by simp)
      | some sw =>
          obtain ⟨s2, ws1⟩ := sw
          rw [h1] at h
          dsimp only at h
          cases h2 : Config.clearNames fuel s2 rest with
          | none => rw [h2] at h; exact absurd h (by simp)
          | some sw2 =>
              obtain ⟨s3, ws2⟩ := sw2
              rw [h2] at h
              simp only [Option.some.injEq, Prod.mk.injEq] at h
              obtain ⟨hs, _⟩ := h
              subst hs
              obtain ⟨f1, b1, t1, ti1, l1, _⟩ := populate_frame _ _ _ _ _ _ h1
              obtain ⟨f2, b2, t2, ti2, l2⟩ := ih fuel s2 s3 ws2 h2
              refine ⟨f2.trans f1, b2.trans b1, t2.trans t1, ti2.trans ti1, ?_⟩
              rw [l2, l1]; simp

theorem clearNames_heap : ∀ (l : List (String × Nat)) (fuel : Nat)
    (s s' : Config) (ws : List Warn),
    (l.map Prod.snd).Nodup → (∀ p ∈ l, p.2 < s.heap.length) →
    Config.clearNames fuel s l = some (s', ws) →
    (∀ p ∈ l, ∃ d w, populateContent fuel s.files s.tree p.1 = some (d, w) ∧
        s'.heap.getD p.2 .nil = d) ∧
    (∀ j, j ∉ l.map Prod.snd → s'.heap.getD j .nil = s.heap.getD j .nil) := by
  intro l
  induction l with
  | nil =>
      intro fuel s s' ws _ _ h
      simp only [Config.clearNames, Option.some.injEq, Prod.mk.injEq] at h
      rw [← h.1]
      exact ⟨by simp, fun j _ => rfl⟩
  | cons p rest ih =>
      intro fuel s s' ws hnd hbound h
      obtain ⟨n, i⟩ := p
      have hi : i < s.heap.length := hbound (n, i) (List.mem_cons_self _ _)
      unfold Config.clearNames at h
      cases h1 : Config.populate fuel { s with heap := s.heap.set i .nil } n i with
      | none => rw [h1] at h; exact absurd h (by simp)
      | some sw =>
          obtain ⟨s2, ws1⟩ := sw
          rw [h1] at h
          dsimp only at h
          cases h2 : Config.clearNames fuel s2 rest with
          | none => rw [h2] at h; exact absurd h (by simp)
          | some sw2 =>
              obtain ⟨s3, ws2⟩ := sw2
              rw [h2] at h
              simp only [Option.some.injEq, Prod.mk.injEq] at h
              obtain ⟨hs, _⟩ := h
              subst hs
              -- the cleared slot makes `populate` act from empty contents
              have hempty : ({ s with heap := s.heap.set i .nil } : Config).heap.getD i .nil
                  = .nil := getD_set_self _ _ _ _ hi
              rw [populate_empty fuel _ n i hempty] at h1
              cases h3 : populateContent fuel s.files s.tree n with
              | none =>
                  rw [show ({ s with heap := s.heap.set i .nil } : Config).files = s.files
                        from rfl,
                      show ({ s with heap := s.heap.set i .nil } : Config).tree = s.tree
                        from rfl, h3] at h1
                  exact absurd h1 (by simp)
              | some dw =>
                  obtain ⟨d, w⟩ := dw
                  rw [show ({ s with heap := s.heap.set i .nil } : Config).files = s.files
                        from rfl,
                      show ({ s with heap := s.heap.set i .nil } : Config).tree = s.tree
                        from rfl, h3] at h1
                  simp only [Option.map_some', Option.some.injEq, Prod.mk.injEq] at h1
                  obtain ⟨hs2, hw1⟩ := h1
                  subst hs2
                  -- collapse the double set of the cleared-then-refilled slot
                  simp only [List.set_set] at h2
                  have hndrest : (rest.map Prod.snd).Nodup := (List.nodup_cons.mp hnd).2
                  have hinotin : i ∉ rest.map Prod.snd := (List.nodup_cons.mp hnd).1
                  have hboundrest : ∀ p ∈ rest,
                      p.2 < ({ s with heap := s.heap.set i d } : Config).heap.length := by
                    intro p hp
                    simp only [List.length_set]
                    exact hbound p (List.mem_cons_of_mem _ hp)
                  obtain ⟨ihA, ihB⟩ :=
                    ih fuel { s with heap := s.heap.set i d } s3 ws2 hndrest hboundrest h2
                  constructor
                  · intro p hp
                    rcases List.mem_cons.mp hp with hp1 | hp2
                    · subst hp1
                      refine ⟨d, w, h3, ?_⟩
                      rw [ihB i hinotin]
                      exact getD_set_self _ _ _ _ hi
                    · obtain ⟨d2, w2, hc2, hh2⟩ := ihA p hp2
                      exact ⟨d2, w2, hc2, hh2⟩
                  · intro j hj
                    simp only [List.map_cons, List.mem_cons] at hj
                    push_neg at hj
                    rw [ihB j hj.2]
                    exact getD_set_ne _ _ _ _ _ (fun e => hj.1 e.symm)

theorem clear_spec (fuel : Nat) (s s' : Config) (ws : List Warn) (hwf : WF s)
    (h : Config.clear fuel s = some (s', ws)) :
    s'.files = s.files ∧ s'.binding = s.binding ∧ s'.tree = s.tree ∧
    s'.treeId = s.treeId ∧ s'.heap.length = s.heap.length ∧
    (∀ n i, lookupB s.binding n = some i →
      ∃ d w, populateContent fuel s.files s.tree n = some (d, w) ∧
        s'.heap.getD i .nil = d) := by
  obtain ⟨f, b, t, ti, l⟩ := clearNames_frame s.binding fuel s s' ws h
  refine ⟨f, b, t, ti, l, ?_⟩
  intro n i hlook
  have hmem := lookupB_mem s.binding n i hlook
  obtain ⟨hA, _⟩ := clearNames_heap s.binding fuel s s' ws hwf.2.1
    (fun p hp => hwf.2.2 p hp) h
  exact hA (n, i) hmem

theorem getitem_hit (fuel : Nat) (s : Config) (key : String) (i : Nat)
    (h : lookupB s.binding key = some i) :
    Config.getitem fuel s key = some (s, i, []) := by
  unfold Config.getitem
  rw [h]

theorem getitem_spec (fuel : Nat) (s : Config) (key : String) (s' : Config)
    (i : Nat) (ws : List Warn)
    (h : Config.getitem fuel s key = some (s', i, ws)) :
    lookupB s'.binding key = some i := by
  unfold Config.getitem at h
  cases hl : lookupB s.binding key with
  | some j =>
      rw [hl] at h
      simp only [Option.some.injEq, Prod.mk.injEq] at h
      obtain ⟨hs, hi, _⟩ := h
      rw [← hs, ← hi]
      exact hl
  | none =>
      rw [hl] at h
      dsimp only at h
      cases h1 : Config.populate fuel
          (Config.mk s.files (s.binding ++ [(key, s.heap.length)])
            (s.heap ++ [.nil]) s.tree s.treeId)
          key s.heap.length with
      | none => rw [h1] at h; simp at h
      | some sw =>
          obtain ⟨s2, ws2⟩ := sw
          rw [h1] at h
          simp only [Option.map_some', Option.some.injEq, Prod.mk.injEq] at h
          obtain ⟨hs, hi, _⟩ := h
          obtain ⟨_, hbind, _⟩ := populate_frame _ _ _ _ _ _ h1
          rw [← hs, ← hi, hbind]
          exact lookupB_append_self _ _ _ hl

theorem inheritLoop_scan : ∀ (fuel : Nat) (d : Doc) (ws0 : List Warn)
    (d' : Doc) (ws : List Warn),
    inheritLoop fuel d ws0 = some (d', ws) → markers d' = [] := by
  intro fuel
  induction fuel with
  | zero =>
      intro d ws0 d' ws h
      exact absurd h (by simp [inheritLoop])
  | succ n ih =>
      intro d ws0 d' ws h
      unfold inheritLoop at h
      by_cases hm : markers d = []
      · rw [if_pos hm] at h
        simp only [Option.some.injEq, Prod.mk.injEq] at h
        rw [← h.1]
        exact hm
      · rw [if_neg hm] at h
        cases h2 : inheritSteps d (markers d) ws0 with
        | none => rw [h2] at h; simp at h
        | some dw =>
            obtain ⟨d1, ws1⟩ := dw
            rw [h2] at h
            exact ih d1 ws1 d' ws h

theorem treeUpd_lookup_none : ∀ (M : Doc) (t : Tree) (n : String),
    getk M n = none → lookupT (treeUpd t M) n = lookupT t n
  | .nil, _, _, _ => rfl
  | .cons k v rest, t, n, h => by
      simp only [getk] at h
      by_cases hk : k = n
      · rw [if_pos hk] at h; exact absurd h (by simp)
      · rw [if_neg hk] at h
        show lookupT (treeUpd (setT t k (.leaf v)) rest) n = lookupT t n
        rw [treeUpd_lookup_none rest _ n h]
        exact lookupT_setT_ne t k n _ hk

theorem treeUpd_lookup_some : ∀ (M : Doc) (t : Tree) (n : String) (vv : Val),
    (fieldsKeys M).Nodup → getk M n = some vv →
    lookupT (treeUpd t M) n = some (.leaf vv)
  | .nil, _, n, vv, _, h => by simp [getk] at h
  | .cons k v rest, t, n, vv, hnd, h => by
      simp only [getk] at h
      simp only [fieldsKeys, List.nodup_cons] at hnd
      by_cases hk : k = n
      · rw [if_pos hk] at h
        obtain rfl : v = vv := Option.some.inj h
        subst hk
        have hrest : getk rest k = none :=
          getk_eq_none_of_not_mem rest k hnd.1
        show lookupT (treeUpd (setT t k (.leaf v)) rest) k = some (.leaf v)
        rw [treeUpd_lookup_none rest _ k hrest]
        exact lookupT_setT_self t k _
      · rw [if_neg hk] at h
        exact treeUpd_lookup_some rest _ n vv hnd.2 h

/-! ### Claim theorems -/

/-- C1: for every document name K, the store never rebinds K to a different
document object: repeated gets return the same heap id, and `set`, `delete`
and whole-store `clear` preserve the binding (every reset path only clears
and repopulates the bound object's contents). -/
theorem identity_stable (fuel : Nat) (s : Config) (K : String) :
    (∀ s1 i ws, Config.getitem fuel s K = some (s1, i, ws) →
      lookupB s1.binding K = some i ∧ Config.getitem fuel s1 K = some (s1, i, [])) ∧
    (∀ i m s' ws, lookupB s.binding K = some i →
      Config.setitem fuel s K m = some (s', ws) → lookupB s'.binding K = some i) ∧
    (∀ i s' ws, lookupB s.binding K = some i →
      Config.delitem fuel s K = some (s', ws) → lookupB s'.binding K = some i) ∧
    (∀ s' ws, Config.clear fuel s = some (s', ws) → s'.binding = s.binding) := by
  refine ⟨?_, ?_, ?_, ?_⟩
  · intro s1 i ws h
    have hb := getitem_spec fuel s K s1 i ws h
    exact ⟨hb, getitem_hit fuel s1 K i hb⟩
  · intro i m s' ws hK h
    unfold Config.setitem at h
    rw [getitem_hit fuel s K i hK] at h
    dsimp only at h
    rw [getitem_hit fuel { s with heap := s.heap.set i .nil } K i hK] at h
    dsimp only at h
    simp only [Option.some.injEq, Prod.mk.injEq] at h
    obtain ⟨hs, _⟩ := h
    rw [← hs]
    exact hK
  · intro i s' ws hK h
    unfold Config.delitem at h
    rw [getitem_hit fuel s K i hK] at h
    dsimp only at h
    cases h1 : Config.populate fuel
        (Config.mk s.files s.binding (s.heap.set i .nil) s.tree s.treeId) K i with
    | none => rw [h1] at h; simp at h
    | some sw =>
        obtain ⟨s3, ws2⟩ := sw
        rw [h1] at h
        simp only [Option.some.injEq, Prod.mk.injEq] at h
        obtain ⟨hs, _⟩ := h
        obtain ⟨_, hbind, _⟩ := populate_frame _ _ _ _ _ _ h1
        rw [← hs, hbind]
        exact hK
  · intro s' ws h
    exact (clearNames_frame s.binding fuel s s' ws h).2.1

/-- C1 witness: the identity-stability facts evaluated on a concrete store
(a fresh store after a first get of the name K, then set, delete, clear). -/
theorem identity_stable_witness :
    (lookupB c1W.binding "K" = some 0 ∧ Config.getitem 2 c1W "K" = some (c1W, 0, [])) ∧
    lookupB c1WSet.binding "K" = some 0 ∧
    lookupB c1W.binding "K" = some 0 ∧
    c1W.binding = c1W.binding :=
  ⟨(identity_stable 2 (mkConfig []) "K").1 c1W 0 [.configNotFound] (by decide),
   (identity_stable 2 c1W "K").2.1 0 (.cons "z" (.str "zz") .nil) c1WSet []
     (by decide) (by decide),
   (identity_stable 2 c1W "K").2.2.1 0 c1W [.configNotFound] (by decide) (by decide),
   (identity_stable 2 c1W "K").2.2.2 c1W [.configNotFound] (by decide)⟩

/-- C2 counterexample: with base layer a=1, b with x=1 and y=2, local layer
b with x=9, runtime layer b with y=99, the pipeline yields a=1, b with y=99
only — not the claimed a=1, b with x=9 and y=99: the runtime layer replaces
the whole top-level key b instead of deep-merging into it. -/
theorem runtime_layer_shallow_cex :
    (Config.getitem 4 c2Store "doc").map
      (fun r => (r.1.heap.getD r.2.1 .nil, r.2.1, r.2.2)) = some (c2Actual, 0, []) ∧
    c2Actual ≠ c2Claimed :=
  ⟨by decide, by decide⟩

/-- C2 (amended): the local layer deep-merges onto the base (x is overridden
inside b while y survives), but the runtime layer is applied with a shallow
top-level `AttrDict.update`, so its mapping value replaces the whole key b;
the pipeline result for the three layers is a=1, b with y=99 only. -/
theorem runtime_layer_shallow :
    (Config.getitem 4 c2Store "doc").map
      (fun r => (r.1.heap.getD r.2.1 .nil, r.2.1, r.2.2)) = some (c2Actual, 0, []) ∧
    updateDict (.ofList [("a", .int 1), ("b", .map (.ofList [("x", .int 1), ("y", .int 2)]))])
        (.ofList [("b", .map (.ofList [("x", .int 9)]))])
      = some (.ofList [("a", .int 1), ("b", .map (.ofList [("x", .int 9), ("y", .int 2)]))]) ∧
    updateShallow
        (.ofList [("a", .int 1), ("b", .map (.ofList [("x", .int 9), ("y", .int 2)]))])
        (.ofList [("b", .map (.ofList [("y", .int 99)]))])
      = c2Actual :=
  ⟨by decide, by decide, by decide⟩

/-- C3 counterexample: two documents on which the resolver finishes while a
mapping node still contains the reserved marker key.  In the first the
`inherit` key holds a mapping value; in the second a mapping carrying an
ordinary string-valued marker sits inside a sequence, which `flatten_dict`
treats as a leaf.  Both are fixed points of the resolver: the leaf-flatten
scan of `_needs_inherit` never reports either marker. -/
theorem mapping_marker_survives :
    inheritLoop 3 c3CexDoc [] = some (c3CexDoc, []) ∧ hasInheritDeep c3CexDoc = true ∧
    inheritLoop 3 c3SeqDoc [] = some (c3SeqDoc, []) ∧ hasInheritDeep c3SeqDoc = true :=
  ⟨by decide, by decide, by decide, by decide⟩

/-- C3 (amended): whenever the rescan loop of the resolver terminates, the
final document has zero markers as seen by the `_needs_inherit` leaf-flatten
scan — the loop exits exactly when a full scan finds none.  Markers that the
scan cannot see may remain in the finished document: an `inherit` key whose
value is itself a mapping, and marker-bearing mappings nested inside
sequences (including ordinary string-valued markers), since `flatten_dict`
treats sequences as leaves. -/
theorem resolver_scan_clean (fuel : Nat) (d : Doc) (ws0 : List Warn)
    (d' : Doc) (ws : List Warn) (h : inheritLoop fuel d ws0 = some (d', ws)) :
    markers d' = [] :=
  inheritLoop_scan fuel d ws0 d' ws h

/-- C3 witness: the scan-cleanliness fact evaluated on a concrete run. -/
theorem resolver_scan_clean_witness :
    inheritLoop 1 (.cons "z" (.int 1) .nil) [] = some (.cons "z" (.int 1) .nil, []) ∧
    markers (.cons "z" (.int 1) .nil) = [] :=
  ⟨by decide,
   resolver_scan_clean 1 (.cons "z" (.int 1) .nil) [] (.cons "z" (.int 1) .nil) []
     (by decide)⟩

/-- C4: for the document root with k1, k2 and mid inheriting root while
mid.extra inherits mid, resolution produces mid with k1, k2 and extra
holding exactly mid's pre-extra content k1, k2 — extra's marker is gone and
extra is not a self-containing copy. -/
theorem nested_inherit_resolution :
    inheritLoop 4 c4Doc [] = some (c4Resolved, []) := by decide

/-- C5 counterexample: for the document whose only entry broken carries the
marker path does/not/exist, resolution raises the advisory but does NOT
leave the marker and value untouched: broken ends up as an empty mapping
(marker deleted, node rebased), different from its original contents. -/
theorem broken_inherit_untouched_cex :
    inheritLoop 3 c5CexDoc [] =
      some (.cons "broken" (.map .nil) .nil, [.invalidInheritPath]) ∧
    Fields.cons "broken" (Val.map .nil) .nil ≠ c5CexDoc :=
  ⟨by decide, by decide⟩

/-- C5 (amended): a broken inherit path raises exactly one
InvalidInheritPath advisory and resolution continues without crashing (the
ok node still gets resolved), but the marker-bearing node is left in a
partially-resolved state: its marker key is deleted and it is rebased onto
the deepest node reached along the path — the document root when the very
first path element is missing. -/
theorem broken_inherit_rebases :
    inheritLoop 3 c5Doc [] = some (c5Resolved, [.invalidInheritPath]) := by decide

/-- C7 counterexample: a private-prefixed name that was cached through item
access is returned by attribute access instead of raising AttributeError —
the cache check precedes the private-prefix guard in `__getattribute__`. -/
theorem private_cached_returned_cex :
    Config.getitem 2 (mkConfig []) "_foo" = some (c7Cached, 0, [.configNotFound]) ∧
    Config.getattribute 2 c7Cached (fun _ => false) "_foo" =
      some (c7Cached, .doc 0, []) ∧
    AttrRes.doc 0 ≠ AttrRes.attrError :=
  ⟨by decide, by decide, by decide⟩

/-- C7 (amended): attribute access on a private-prefixed name that is not an
object attribute raises AttributeError only when the name is also not a
cached config key; when it is cached, the cached document is returned — and
in neither case does the lookup fall through to the loader (the store is
unchanged and no advisory is issued). -/
theorem private_uncached_attr_error (fuel : Nat) (s : Config)
    (isObjAttr : String → Bool) (attr : String)
    (h1 : isObjAttr attr = false) (h2 : startsWithUnderscore attr = true) :
    (lookupB s.binding attr = none →
      Config.getattribute fuel s isObjAttr attr = some (s, .attrError, [])) ∧
    (∀ i, lookupB s.binding attr = some i →
      Config.getattribute fuel s isObjAttr attr = some (s, .doc i, [])) := by
  constructor
  · intro hn
    simp [Config.getattribute, h1, h2, hn]
  · intro i hi
    simp [Config.getattribute, h1, hi]

/-- C7 witness: both branches of the amended statement on concrete stores —
an uncached private name raises, a cached one is returned. -/
theorem private_uncached_attr_error_witness :
    Config.getattribute 1 (mkConfig []) (fun _ => false) "_bar" =
      some (mkConfig [], .attrError, []) ∧
    Config.getattribute 1 c7Cached (fun _ => false) "_foo" =
      some (c7Cached, .doc 0, []) :=
  ⟨(private_uncached_attr_error 1 (mkConfig []) (fun _ => false) "_bar"
      rfl (by decide)).1 (by decide),
   (private_uncached_attr_error 1 c7Cached (fun _ => false) "_foo"
      rfl (by decide)).2 0 (by decide)⟩

/-- C8: requesting a name for which neither a base file, a local-override
file, a staged runtime override, nor a cached binding exists binds the name
to a new empty document and issues exactly one ConfigNotFound advisory; the
absent `.local` companion contributes no advisory. -/
theorem missing_doc_one_advisory (fuel : Nat) (s : Config) (key : String)
    (hb : lookupF s.files key = none) (hl : lookupF s.files (key ++ ".local") = none)
    (ht : lookupT s.tree key = none) (hK : lookupB s.binding key = none) :
    Config.getitem (fuel + 1) s key =
      some (Config.mk s.files (s.binding ++ [(key, s.heap.length)])
              (s.heap ++ [.nil]) s.tree s.treeId,
            s.heap.length, [.configNotFound]) ∧
    lookupB (s.binding ++ [(key, s.heap.length)]) key = some s.heap.length := by
  constructor
  · have hpm : populateMerged s.files s.tree key = some (.nil, [.configNotFound]) := by
      simp [populateMerged, hb, hl, ht]
    have hgd : (s.heap ++ [Fields.nil]).getD s.heap.length Fields.nil = Fields.nil :=
      getD_append_length _ _ _
    have hset : (s.heap ++ [Fields.nil]).set s.heap.length Fields.nil
        = s.heap ++ [Fields.nil] :=
      set_append_length _ _ _
    unfold Config.getitem
    rw [hK]
    dsimp only
    unfold Config.populate
    dsimp only
    rw [hpm, hgd]
    show Option.map _ (match inheritLoop (fuel + 1) (updateShallow .nil .nil) [] with
      | none => none
      | some (d, ws2) => some (_, [Warn.configNotFound] ++ ws2)) = _
    rw [show inheritLoop (fuel + 1) (updateShallow .nil .nil) [] =
          some (.nil, []) from by simp [inheritLoop, markers, flattenDoc, updateShallow]]
    simp only [updateShallow]
    rw [hset]
    simp
  · exact lookupB_append_self _ _ _ hK

/-- C8 witness: the missing-name behaviour evaluated on a concrete store. -/
theorem missing_doc_one_advisory_witness :
    Config.getitem 1 (mkConfig [("other", .cons "q" (.str "w") .nil)]) "missing" =
      some (Config.mk [("other", .cons "q" (.str "w") .nil)] ([] ++ [("missing", 0)])
              ([] ++ [.nil]) .nil 0,
            0, [.configNotFound]) ∧
    lookupB ([] ++ [("missing", 0)]) "missing" = some 0 := by
  have H := missing_doc_one_advisory 0 (mkConfig [("other", .cons "q" (.str "w") .nil)])
    "missing" (by decide) (by decide) (by decide) (by decide)
  exact H

/-- C6: staging `runtime[X][k] = v` on a fresh store and then getting X
yields a document in which k has value v, and after a whole-store clear the
repopulated document still has k = v — every repopulation re-applies the
staged Override Tree entry for X. -/
theorem runtime_override_persists (fuel : Nat) (files : List (String × Doc))
    (X k : String) (v : Val)
    (hb : lookupF files X = none) (hl : lookupF files (X ++ ".local") = none)
    (hm : markers (.cons k v .nil) = []) :
    treeAssign2 (fuel + 1) (mkConfig files) X k v = some (c6S1 files X k v) ∧
    Config.getitem (fuel + 1) (c6S1 files X k v) X =
      some (c6S2 files X k v, 0, [.configNotFound]) ∧
    getk ((c6S2 files X k v).heap.getD 0 .nil) k = some v ∧
    Config.clear (fuel + 1) (c6S2 files X k v) =
      some (c6S2 files X k v, [.configNotFound]) ∧
    getk ((c6S2 files X k v).heap.getD 0 .nil) k = some v := by
  have hpm : populateMerged files (c6Tree X k v) X
      = some (.cons k v .nil, [.configNotFound]) := by
    simp [populateMerged, hb, hl, c6Tree, lookupT, asEntries, TFields.toFields,
          TVal.toVal, updateShallow, setk]
  have hil : inheritLoop (fuel + 1) (Fields.cons k v .nil) []
      = some (.cons k v .nil, []) := by
    simp [inheritLoop, hm]
  refine ⟨?_, ?_, ?_, ?_, ?_⟩
  · simp [treeAssign2, treeGetTop, mkConfig, lookupT, Config.clear,
          Config.clearNames, setT, c6S1, c6Tree]
  · simp [Config.getitem, c6S1, c6S2, lookupB, Config.populate, hpm, hil,
          updateShallow, setk]
  · simp [c6S2, getk]
  · simp only [c6Tree] at hpm
    simp [Config.clear, Config.clearNames, c6S2, Config.populate, hpm, hil,
          updateShallow, setk, c6Tree]
  · simp [c6S2, getk]

/-- C6 witness: the override-persistence facts evaluated on a concrete
fresh store with X, k and the value v. -/
theorem runtime_override_persists_witness :
    treeAssign2 2 (mkConfig []) "X" "k" (.str "v") = some (c6S1 [] "X" "k" (.str "v")) ∧
    Config.getitem 2 (c6S1 [] "X" "k" (.str "v")) "X" =
      some (c6S2 [] "X" "k" (.str "v"), 0, [.configNotFound]) ∧
    getk ((c6S2 [] "X" "k" (.str "v")).heap.getD 0 .nil) "k" = some (.str "v") ∧
    Config.clear 2 (c6S2 [] "X" "k" (.str "v")) =
      some (c6S2 [] "X" "k" (.str "v"), [.configNotFound]) ∧
    getk ((c6S2 [] "X" "k" (.str "v")).heap.getD 0 .nil) "k" = some (.str "v") :=
  runtime_override_persists 1 [] "X" "k" (.str "v") (by decide) (by decide) (by decide)

/-- C9: assigning a plain mapping M to the runtime property keeps the
ConfigTree object (`treeId` unchanged — the property setter updates the one
tree in place, never rebinds it), merges M's top-level entries into the
existing tree (entries outside M stay staged), and triggers a full store
invalidation: every bound document's contents equal a fresh run of the
populate pipeline against the updated tree.  Deleting the property clears
the tree's contents in place, again without rebinding. -/
theorem runtime_setter_merges_and_invalidates (fuel : Nat) (s : Config) (M : Doc)
    (s' : Config) (ws : List Warn) (hwf : WF s) (hnd : (fieldsKeys M).Nodup)
    (h : setRuntime fuel s M = some (s', ws)) :
    s'.treeId = s.treeId ∧ s'.binding = s.binding ∧
    (∀ n, getk M n = none → lookupT s'.tree n = lookupT s.tree n) ∧
    (∀ n vv, getk M n = some vv → lookupT s'.tree n = some (.leaf vv)) ∧
    (∀ n i, lookupB s.binding n = some i →
      ∃ d w, populateContent fuel s.files (treeUpd s.tree M) n = some (d, w) ∧
        s'.heap.getD i .nil = d) ∧
    (∀ s2 ws2, delRuntime fuel s = some (s2, ws2) →
      s2.tree = .nil ∧ s2.treeId = s.treeId ∧ s2.binding = s.binding) := by
  unfold setRuntime at h
  have hwfT : WF { s with tree := treeUpd s.tree M } := hwf
  obtain ⟨hf, hbind, htree, hti, _, hheap⟩ :=
    clear_spec fuel { s with tree := treeUpd s.tree M } s' ws hwfT h
  refine ⟨hti, hbind, ?_, ?_, ?_, ?_⟩
  · intro n hn
    rw [htree]
    exact treeUpd_lookup_none M s.tree n hn
  · intro n vv hv
    rw [htree]
    exact treeUpd_lookup_some M s.tree n vv hnd hv
  · intro n i hni
    exact hheap n i hni
  · intro s2 ws2 h2
    unfold delRuntime at h2
    obtain ⟨_, hb2, ht2, hti2, _⟩ :=
      clearNames_frame _ fuel { s with tree := TFields.nil } s2 ws2 h2
    exact ⟨ht2, hti2, hb2⟩

/-- C9 witness: the setter facts evaluated on a concrete store with one
populated document and one previously staged override. -/
theorem runtime_setter_merges_and_invalidates_witness :
    c9Sres.treeId = c9S.treeId ∧
    lookupT c9Sres.tree "keep" = lookupT c9S.tree "keep" ∧
    lookupT c9Sres.tree "d0" = some (.leaf (.map (.cons "q" (.str "1") .nil))) ∧
    c9Sres.heap.getD 0 .nil = .cons "q" (.str "1") .nil := by
  have H := runtime_setter_merges_and_invalidates 2 c9S c9M c9Sres [.configNotFound]
    (by decide) (by decide) (by decide)
  refine ⟨H.1, H.2.2.1 "keep" (by decide), H.2.2.2.1 "d0" _ (by decide), ?_⟩
  obtain ⟨d, w, hc, hh⟩ := H.2.2.2.2.1 "d0" 0 (by decide)
  have hd : populateContent 2 c9S.files (treeUpd c9S.tree c9M) "d0"
      = some (.cons "q" (.str "1") .nil, [.configNotFound]) := by decide
  rw [hd] at hc
  simp only [Option.some.injEq, Prod.mk.injEq] at hc
  rw [hh, ← hc.1]

/-- C10: evaluating `runtime[a][b]` with `a` previously absent is itself a
mutation: both levels are auto-vivified through the overridden item-set
path (the read returns a fresh empty subtree), and the store is fully
invalidated — every bound document's contents equal a fresh populate run
against the tree holding the new empty subtree. -/
theorem tree_read_vivifies_and_invalidates (fuel : Nat) (s : Config) (a b : String)
    (s' : Config) (tv : TVal) (hwf : WF s) (ha : lookupT s.tree a = none)
    (h : treeRead2 fuel s a b = some (s', tv)) :
    tv = .node .nil ∧
    lookupT s'.tree a = some (.node (.cons b (.node .nil) .nil)) ∧
    s'.binding = s.binding ∧
    (∀ n i, lookupB s.binding n = some i →
      ∃ d w, populateContent fuel s.files (setT s.tree a (.node (.cons b (.node .nil) .nil))) n
        = some (d, w) ∧ s'.heap.getD i .nil = d) := by
  unfold treeRead2 treeGetTop at h
  rw [ha] at h
  dsimp only at h
  cases h1 : Config.clear fuel (Config.mk s.files s.binding s.heap
      (setT s.tree a (.node .nil)) s.treeId) with
  | none => rw [h1] at h; simp at h
  | some sw =>
      obtain ⟨s2, ws2⟩ := sw
      rw [h1] at h
      dsimp only at h
      have hwf1 : WF { s with tree := setT s.tree a (.node .nil) } := hwf
      obtain ⟨hf1, hb1, ht1, hti1, hlen1, _⟩ :=
        clear_spec fuel { s with tree := setT s.tree a (.node .nil) } s2 ws2 hwf1 h1
      have hf1' : s2.files = s.files := hf1
      have hb1' : s2.binding = s.binding := hb1
      have ht1' : s2.tree = setT s.tree a (.node .nil) := ht1
      have hlen1' : s2.heap.length = s.heap.length := hlen1
      simp only [lookupT] at h
      cases h2 : Config.clear fuel (Config.mk s2.files s2.binding s2.heap
          (setT s2.tree a (.node (setT .nil b (.node .nil)))) s2.treeId) with
      | none => rw [h2] at h; simp at h
      | some sw2 =>
          obtain ⟨s3, ws3⟩ := sw2
          rw [h2] at h
          simp only [Option.some.injEq, Prod.mk.injEq] at h
          obtain ⟨hs, htv⟩ := h
          subst hs
          have hwf2 : WF (Config.mk s2.files s2.binding s2.heap
              (setT s2.tree a (.node (setT .nil b (.node .nil)))) s2.treeId) := by
            unfold WF at hwf ⊢
            dsimp only
            rw [hb1', hlen1']
            exact hwf
          obtain ⟨hf2, hb2, ht2, hti2, hlen2, hheap2⟩ :=
            clear_spec fuel (Config.mk s2.files s2.binding s2.heap
              (setT s2.tree a (.node (setT .nil b (.node .nil)))) s2.treeId) s3 ws3 hwf2 h2
          have htree3 : s3.tree = setT s.tree a (.node (.cons b (.node .nil) .nil)) := by
            rw [ht2]
            show setT s2.tree a (.node (.cons b (.node .nil) .nil)) = _
            rw [ht1']
            exact setT_setT_self s.tree a _ _
          refine ⟨htv.symm, ?_, ?_, ?_⟩
          · rw [htree3]
            exact lookupT_setT_self s.tree a _
          · rw [hb2]
            show s2.binding = s.binding
            exact hb1'
          · intro n i hni
            have hni2 : lookupB s2.binding n = some i := by rw [hb1']; exact hni
            obtain ⟨d, w, hc, hh⟩ := hheap2 n i hni2
            refine ⟨d, w, ?_, hh⟩
            rw [← hc]
            show populateContent fuel s.files
                (setT s.tree a (.node (.cons b (.node .nil) .nil))) n
              = populateContent fuel s2.files
                (setT s2.tree a (.node (.cons b (.node .nil) .nil))) n
            rw [hf1', ht1', setT_setT_self]

/-- C10 witness: the auto-vivification facts evaluated on a concrete store
with one populated (stale) document. -/
theorem tree_read_vivifies_and_invalidates_witness :
    TVal.node .nil = TVal.node .nil ∧
    lookupT c10Sres.tree "a" = some (.node (.cons "b" (.node .nil) .nil)) ∧
    c10Sres.binding = c10S.binding ∧
    c10Sres.heap.getD 0 .nil = .cons "p" (.str "file") .nil := by
  have H := tree_read_vivifies_and_invalidates 2 c10S "a" "b" c10Sres (.node .nil)
    (by decide) (by decide) (by decide)
  refine ⟨H.1, H.2.1, H.2.2.1, ?_⟩
  obtain ⟨d, w, hc, hh⟩ := H.2.2.2 "d0" 0 (by decide)
  have hd : populateContent 2 c10S.files
      (setT c10S.tree "a" (.node (.cons "b" (.node .nil) .nil))) "d0"
      = some (.cons "p" (.str "file") .nil, []) := by decide
  rw [hd] at hc
  simp only [Option.some.injEq, Prod.mk.injEq] at hc
  rw [hh, ← hc.1]

end Yaycl
